import Mathlib

/-!
Verification of the NoteOCR backend (src/index.js): a shallow embedding of
the record store, the format-normalizer helpers, the document builder and
the POST /ocr request handler, together with theorems settling the claims
of the specification against this embedding.
-/

namespace NoteOCR

/- ===================== Record store (Mongo-backed documents) ===================== -/

/-- One row of the Document collection (documentSchema in src/index.js):
owner identifier, display name, storage URL, extracted text. The `id` field
models the Mongo `_id`. -/
structure DocRecord where
  id : Nat
  userId : String
  name : String
  url : String
  text : String
deriving DecidableEq

/-- Embedding of `DocumentModel.findOneAndUpdate({ _id, userId }, { name }, { new: true })`:
scan the collection for the first record matching both the id and the owner
identifier, update its name, and return the updated record together with the
updated collection; `none` when no record matches both. -/
def findOneAndUpdateName : List DocRecord → Nat → String → String → Option DocRecord × List DocRecord
  | [], _, _, _ => (none, [])
  | r :: rs, docId, uid, newName =>
    if r.id = docId ∧ r.userId = uid then
      (some { r with name := newName }, { r with name := newName } :: rs)
    else
      let rest := findOneAndUpdateName rs docId uid newName
      (rest.1, r :: rest.2)

/-- Embedding of `DocumentModel.findOneAndDelete({ _id, userId })`: remove and
return the first record matching both the id and the owner identifier. -/
def findOneAndDelete : List DocRecord → Nat → String → Option DocRecord × List DocRecord
  | [], _, _ => (none, [])
  | r :: rs, docId, uid =>
    if r.id = docId ∧ r.userId = uid then (some r, rs)
    else
      let rest := findOneAndDelete rs docId uid
      (rest.1, r :: rest.2)

/-- JSON body of an HTTP response of this server. -/
inductive ResBody where
  | errorMsg (msg : String)
  | createdBody (text : String) (docxUrl : String) (document : DocRecord)
  | recordBody (d : DocRecord)
  | empty
deriving DecidableEq

/-- An HTTP response: status code and JSON body (`empty` for `sendStatus`). -/
structure Res where
  status : Nat
  body : ResBody
deriving DecidableEq

/-- Embedding of the PATCH /documents/:id handler: rename via
`findOneAndUpdate`; 404 when no record with matching id and owner exists. -/
def patchDocumentHandler (records : List DocRecord) (docId : Nat) (uid newName : String) :
    Res × List DocRecord :=
  match findOneAndUpdateName records docId uid newName with
  | (some d, records') => (⟨200, .recordBody d⟩, records')
  | (none, records') => (⟨404, .empty⟩, records')

/-- Embedding of the DELETE /documents/:id handler: delete via
`findOneAndDelete`; 404 when no record with matching id and owner exists. -/
def deleteDocumentHandler (records : List DocRecord) (docId : Nat) (uid : String) :
    Res × List DocRecord :=
  match findOneAndDelete records docId uid with
  | (some _, records') => (⟨200, .empty⟩, records')
  | (none, records') => (⟨404, .empty⟩, records')

/- ===================== Path helpers (format normalizer) ===================== -/

/-- The reversed basename of a posix path: its characters after the last
slash, read from the end, with trailing slashes skipped as in Node's scan. -/
def basenameRev (cs : List Char) : List Char :=
  (cs.reverse.dropWhile (fun c => c = '/')).takeWhile (fun c => c ≠ '/')

/-- Embedding of Node `path.extname` on a posix path given as a character
list: the extension of the basename, empty when the basename has no dot or
its only dot is its first character, and empty for the special name `..`. -/
def extnameList (cs : List Char) : List Char :=
  if basenameRev cs = ['.', '.'] then []
  else if ((basenameRev cs).takeWhile (fun c => c ≠ '.')).length + 1 < (basenameRev cs).length then
    ((basenameRev cs).takeWhile (fun c => c ≠ '.') ++ ['.']).reverse
  else []

/-- Embedding of the JS regex replacement used by both helpers: replace the
final dot-suffix of the whole path (a dot followed by at least one non-dot
character, at the end of the string) by `repl`; when the regex does not
match, the path is returned unchanged. -/
def replaceLastDotSuffix (cs : List Char) (repl : List Char) : List Char :=
  let aRev := cs.reverse.takeWhile (fun c => c ≠ '.')
  if 0 < aRev.length ∧ aRev.length < cs.length then
    (cs.reverse.drop (aRev.length + 1)).reverse ++ repl
  else cs

/-- Length of the run of non-dot characters at the end of the path. -/
def tailAfterLastDotLen (cs : List Char) : Nat :=
  (cs.reverse.takeWhile (fun c => c ≠ '.')).length

/-- The replacement regex of the two helpers matches the path: the path has
a dot, with at least one character after its last dot. -/
def dotSuffixMatch (cs : List Char) : Prop :=
  0 < tailAfterLastDotLen cs ∧ tailAfterLastDotLen cs < cs.length

instance (cs : List Char) : Decidable (dotSuffixMatch cs) := by
  unfold dotSuffixMatch
  infer_instance

/-- The fixed set of extensions converted to JPEG by `convertToJPEG`. -/
def jpegSrcExts : List String := [".heic", ".heif", ".png", ".tiff", ".tif", ".gif"]

/-- Embedding of `path.extname(inputPath).toLowerCase()`. -/
def extLower (p : String) : String := String.mk ((extnameList p.toList).map Char.toLower)

/-- The JPEG quality used by both sharp pipelines in the source. -/
def sharpJpegQuality : Nat := 90

/-- Embedding of the `convertToJPEG` helper of src/index.js: when the
lowercased extension is in the fixed set, return the input path with its
final dot-suffix replaced by `_converted.jpg` (the path sharp writes the
converted copy to); otherwise return the input path unchanged. The write of
the converted file is accounted for at the call site in `ocrHandler`. -/
def convertToJPEG (p : String) : String :=
  if jpegSrcExts.contains (extLower p) then
    String.mk (replaceLastDotSuffix p.toList ("_converted.jpg".toList))
  else p

/-- The 20 MiB byte-size threshold of `downscaleImage`. -/
def downscaleThreshold : Nat := 20 * 1024 * 1024

/-- The width option passed to sharp's resize in `downscaleImage`. -/
def downscaleResizeWidth : Nat := 2000

/-- The rejection message of a sharp `toFile` call whose output path equals
its input path. -/
def sharpSameFileMessage : String := "Cannot use same file for input and output"

/-- Embedding of the `downscaleImage` helper of src/index.js. The source
reads the byte size of the file at the input path with `fs.statSync`; here
that size is the explicit `size` argument. Over the threshold, the output
path is the input path with its final dot-suffix replaced by `_resized.jpg`
and sharp writes the resized copy there — unless the substitution was
vacuous and the output path equals the input path, in which case sharp
rejects the write and the helper rejects with sharp's message instead of
returning a path. At or below the threshold the input path is returned
unchanged. The write of the resized copy is accounted for at the call site
in `ocrHandler`. -/
def downscaleImage (size : Nat) (p : String) : Except String String :=
  if downscaleThreshold < size then
    let outputPath := String.mk (replaceLastDotSuffix p.toList ("_resized.jpg".toList))
    if outputPath = p then .error sharpSameFileMessage else .ok outputPath
  else .ok p

/- ===================== Output file name (date handling) ===================== -/

/-- A calendar date, the observable content of `new Date()` used by the
handler's file naming. -/
structure SimpleDate where
  day : Nat
  month : Nat
  year : Nat
deriving DecidableEq

/-- Two-digit zero padding, as the en-GB locale applies to day and month. -/
def pad2 (n : Nat) : String := if n < 10 then "0" ++ toString n else toString n

/-- Embedding of `Date.prototype.toLocaleDateString("en-GB")`: the string
DD/MM/YYYY with zero-padded day and month. -/
def toLocaleDateStringEnGB (d : SimpleDate) : String :=
  pad2 d.day ++ "/" ++ pad2 d.month ++ "/" ++ toString d.year

/-- Character map of the JS global replacement of '/' by '.'. -/
def slashToDot (c : Char) : Char := if c = '/' then '.' else c

/-- Embedding of the generated output file name of src/index.js line 174:
the en-GB locale date string with slashes replaced by dots, truncated by
`slice(0, 8)` to its first 8 characters, wrapped in the document_ prefix and
the .docx extension. -/
def docFileName (d : SimpleDate) : String :=
  "document_" ++ String.mk (((toLocaleDateStringEnGB d).toList.map slashToDot).take 8) ++ ".docx"

/- ===================== OCR result model and document builder ===================== -/

/-- A text segment of the Document AI response: start and end character
offsets into the full text, either possibly absent. The source applies
`parseInt(segment.startIndex || "0")`; the decimal string carrying the
offset is modelled directly by the offset it denotes. -/
structure TextSegment where
  startIndex : Option Nat
  endIndex : Option Nat
deriving DecidableEq

/-- The textAnchor of a paragraph layout, holding its text segments. -/
structure TextAnchor where
  textSegments : Option (List TextSegment)
deriving DecidableEq

/-- The layout of an OCR paragraph. -/
structure ParaLayout where
  textAnchor : Option TextAnchor
deriving DecidableEq

/-- A detected language of a paragraph with its confidence score. The score
is modelled as a rational number; the only use the source makes of it is the
comparison with the literal 0.9. -/
structure DetectedLanguage where
  confidence : Option ℚ
deriving DecidableEq

/-- An OCR paragraph: layout (holding the text segments) and the detected
languages list, any part possibly absent as in the optional chains of the
source. -/
structure OcrParagraph where
  layout : Option ParaLayout
  detectedLanguages : Option (List DetectedLanguage)
deriving DecidableEq

/-- An OCR page: its paragraphs, possibly absent (`page.paragraphs || []`). -/
structure OcrPage where
  paragraphs : Option (List OcrParagraph)
deriving DecidableEq

/-- The document of the Document AI response: full text and pages. -/
structure OcrDocument where
  text : Option String
  pages : Option (List OcrPage)
deriving DecidableEq

/-- The Document AI response: `result.document`, possibly absent. -/
structure OcrResult where
  document : Option OcrDocument
deriving DecidableEq

/-- Embedding of JS `text.slice(start, stop)` for non-negative indices:
the characters from `start` (inclusive) to `stop` (exclusive), clamped to
the string, empty when `start ≥ stop`. -/
def jsSlice (text : String) (start stop : Nat) : String :=
  String.mk ((text.toList.take stop).drop start)

/-- The optional chain `para.layout?.textAnchor?.textSegments || []`. -/
def paraSegments (para : OcrParagraph) : List TextSegment :=
  ((para.layout.bind ParaLayout.textAnchor).bind TextAnchor.textSegments).getD []

/-- The bold flag `para.detectedLanguages?.[0]?.confidence > 0.9`: false
whenever any link of the optional chain is absent (in JS, undefined > 0.9
is false). -/
def paraBold (para : OcrParagraph) : Bool :=
  match (para.detectedLanguages.bind List.head?).bind DetectedLanguage.confidence with
  | some c => decide ((9 : ℚ) / 10 < c)
  | none => false

/-- A docx text run as constructed by the source (`new TextRun({...})`). -/
structure TextRun where
  text : String
  bold : Bool
  italics : Bool
  font : String
  size : Nat
deriving DecidableEq

/-- Embedding of the run construction in the paragraph loop of the /ocr
handler: slice the full text by the segment offsets (missing offsets
default to 0), append a trailing space, bold from the paragraph's first
detected-language confidence, italics when the sliced text contains an
underscore, fixed Arial font at size 24 half-points. -/
def buildTextRun (text : String) (para : OcrParagraph) (segment : TextSegment) : TextRun :=
  let start := segment.startIndex.getD 0
  let stop := segment.endIndex.getD 0
  let wordText := jsSlice text start stop
  { text := wordText ++ " "
    bold := paraBold para
    italics := wordText.toList.contains '_'
    font := "Arial"
    size := 24 }

/-- A docx paragraph as constructed by the source: its runs, centered
alignment and fixed spacing after. -/
structure DocxParagraph where
  children : List TextRun
  alignmentCenter : Bool
  spacingAfter : Nat
deriving DecidableEq

/-- One output paragraph per OCR paragraph: the runs of its text segments,
centered, spacing 200 after. -/
def buildParagraph (text : String) (para : OcrParagraph) : DocxParagraph :=
  { children := (paraSegments para).map (buildTextRun text para)
    alignmentCenter := true
    spacingAfter := 200 }

/-- Embedding of the nested forEach of the /ocr handler: the output
paragraph list in page order then paragraph order. -/
def buildParagraphs (text : String) (pages : List OcrPage) : List DocxParagraph :=
  (pages.map (fun page => (page.paragraphs.getD []).map (buildParagraph text))).flatten

/- ===================== The POST /ocr handler ===================== -/

/-- The uploaded file as multer hands it to the handler (`req.file`). -/
structure UploadedFile where
  path : String
deriving DecidableEq

/-- The parts of the incoming request the handler reads. -/
structure OcrRequest where
  file : Option UploadedFile
  userId : Option String
deriving DecidableEq

/-- The environment of one request: file sizes as statSync reports them,
the outcome of the Document AI call, the current date, and the configured
server base URL. -/
structure OcrEnv where
  fileSize : String → Nat
  ocr : Except String OcrResult
  date : SimpleDate
  serverUrl : String

/-- Server state observable by the handler: the set of paths present in the
upload directory, and the record collection. -/
structure ServerState where
  files : Finset String
  records : List DocRecord

/-- The message of the TypeError thrown by `doc.pages` when the response
carries no document object. -/
def undefinedPagesMessage : String :=
  "Cannot read properties of undefined (reading pages)"

/-- The conversion step's file write: when `convertToJPEG` returns a new
path, sharp has written the converted copy there. -/
def stAfterConvert (f : UploadedFile) (st : ServerState) : ServerState :=
  let p1 := convertToJPEG f.path
  if p1 ≠ f.path then { st with files := insert p1 st.files } else st

/-- The downscale step's file write: when the step returned a path other
than its input, sharp has written the resized copy there. -/
def stAfterResize (p1 p2 : String) (st : ServerState) : ServerState :=
  if p2 ≠ p1 then { st with files := insert p2 st.files } else st

/-- Embedding of the POST /ocr handler of src/index.js: reject when no file
was uploaded; convert (writing the converted copy when a new path is
returned); downscale — a rejection of the downscale step is caught and
answered with 500 carrying its message, with no cleanup; call Document AI
(any rejection is caught and answered with 500 carrying the error message,
as is the TypeError thrown when the response has no document); build the
docx and write it under the generated name; only then check userId (401
with no cleanup when absent); create the record, answer 201, and finally
unlink the original upload and, when distinct from it, the final derived
path. -/
def ocrHandler (env : OcrEnv) (req : OcrRequest) (st : ServerState) : Res × ServerState :=
  match req.file with
  | none => (⟨400, .errorMsg "No file uploaded"⟩, st)
  | some f =>
    let p1 := convertToJPEG f.path
    let st1 := stAfterConvert f st
    match downscaleImage (env.fileSize p1) p1 with
    | .error e => (⟨500, .errorMsg e⟩, st1)
    | .ok p2 =>
      let st2 := stAfterResize p1 p2 st1
      match env.ocr with
      | .error e => (⟨500, .errorMsg e⟩, st2)
      | .ok result =>
        match result.document with
        | none => (⟨500, .errorMsg undefinedPagesMessage⟩, st2)
        | some doc =>
          let text := doc.text.getD ""
          let _paras := buildParagraphs text (doc.pages.getD [])
          let docName := docFileName env.date
          let st3 := { st2 with files := insert docName st2.files }
          match req.userId with
          | none => (⟨401, .errorMsg "Missing userId"⟩, st3)
          | some uid =>
            let newDoc : DocRecord :=
              { id := st3.records.length
                userId := uid
                name := docName
                url := env.serverUrl ++ "/" ++ docName
                text := text }
            let st4 := { st3 with records := st3.records ++ [newDoc] }
            let st5 := { st4 with files := st4.files.erase f.path }
            let st6 := if p2 ≠ f.path then { st5 with files := st5.files.erase p2 } else st5
            (⟨201, .createdBody text newDoc.url newDoc⟩, st6)

/- ===================== Concrete fixtures ===================== -/

/-- Sample OCR full text for the document-builder scenario. -/
def sampleText : String := "hello world foo bar"

/-- A text segment with both offsets present. -/
def sampleSegment (s e : Nat) : TextSegment := { startIndex := some s, endIndex := some e }

/-- A paragraph holding two text segments and no detected languages. -/
def sampleParagraph (s1 e1 s2 e2 : Nat) : OcrParagraph :=
  { layout := some { textAnchor := some { textSegments := some [sampleSegment s1 e1, sampleSegment s2 e2] } }
    detectedLanguages := none }

/-- Two pages, each with one paragraph of two segments. -/
def samplePages : List OcrPage :=
  [ { paragraphs := some [sampleParagraph 0 5 6 11] }
  , { paragraphs := some [sampleParagraph 12 15 16 19] } ]

/-- Environment of the concrete /ocr scenarios: every file 20 MiB + 1 byte,
a successful OCR call returning a document with empty page list, the date
11 October 2026. -/
def c2Env : OcrEnv :=
  { fileSize := fun _ => 20971521
    ocr := .ok { document := some { text := some "hi", pages := some [] } }
    date := { day := 11, month := 10, year := 2026 }
    serverUrl := "http://localhost:3000" }

/-- A request carrying a PNG upload and a userId. -/
def c2Req : OcrRequest := { file := some { path := "a.png" }, userId := some "u1" }

/-- Initial state: only the uploaded file on disk, no records. -/
def c2St : ServerState := { files := {"a.png"}, records := [] }

/-- A request carrying a file but no userId. -/
def c3Req : OcrRequest := { file := some { path := "a.png" }, userId := none }

/-- Environment whose OCR call succeeds but returns no document object. -/
def c10Env : OcrEnv :=
  { fileSize := fun _ => 0
    ocr := .ok { document := none }
    date := { day := 11, month := 10, year := 2026 }
    serverUrl := "http://localhost:3000" }

/- ===================== Helper lemmas ===================== -/

/-- A scan over a store with no record matching both id and owner finds
nothing and rebuilds the store unchanged. -/
theorem findOneAndUpdateName_none (records : List DocRecord) (docId : Nat) (uid newName : String)
    (h : ∀ r ∈ records, ¬(r.id = docId ∧ r.userId = uid)) :
    findOneAndUpdateName records docId uid newName = (none, records) := by
  induction records with
  | nil => rfl
  | cons r rs ih =>
    have hr := h r (List.mem_cons_self r rs)
    have hrest := ih (fun r' hr' => h r' (List.mem_cons_of_mem r hr'))
    simp [findOneAndUpdateName, hr, hrest]

/-- Deletion counterpart of `findOneAndUpdateName_none`. -/
theorem findOneAndDelete_none (records : List DocRecord) (docId : Nat) (uid : String)
    (h : ∀ r ∈ records, ¬(r.id = docId ∧ r.userId = uid)) :
    findOneAndDelete records docId uid = (none, records) := by
  induction records with
  | nil => rfl
  | cons r rs ih =>
    have hr := h r (List.mem_cons_self r rs)
    have hrest := ih (fun r' hr' => h r' (List.mem_cons_of_mem r hr'))
    simp [findOneAndDelete, hr, hrest]

/-- A successful rename returns a record whose owner is the supplied one. -/
theorem findOneAndUpdateName_some_owner (records : List DocRecord) (docId : Nat)
    (uid newName : String) (d : DocRecord) (records' : List DocRecord)
    (h : findOneAndUpdateName records docId uid newName = (some d, records')) :
    d.userId = uid := by
  induction records generalizing records' with
  | nil => simp [findOneAndUpdateName] at h
  | cons r rs ih =>
    by_cases hc : r.id = docId ∧ r.userId = uid
    · have h2 : { r with name := newName } = d := by
        have h1 := congrArg Prod.fst h
        simpa [findOneAndUpdateName, hc] using h1
      rw [← h2]
      exact hc.2
    · have h1 : (findOneAndUpdateName rs docId uid newName).1 = some d := by
        have h0 := congrArg Prod.fst h
        simpa [findOneAndUpdateName, hc] using h0
      exact ih (findOneAndUpdateName rs docId uid newName).2 (by rw [← h1])

/-- A successful delete removes a record whose owner is the supplied one. -/
theorem findOneAndDelete_some_owner (records : List DocRecord) (docId : Nat)
    (uid : String) (d : DocRecord) (records' : List DocRecord)
    (h : findOneAndDelete records docId uid = (some d, records')) :
    d.userId = uid := by
  induction records generalizing records' with
  | nil => simp [findOneAndDelete] at h
  | cons r rs ih =>
    by_cases hc : r.id = docId ∧ r.userId = uid
    · have h2 : r = d := by
        have h1 := congrArg Prod.fst h
        simpa [findOneAndDelete, hc] using h1
      rw [← h2]
      exact hc.2
    · have h1 : (findOneAndDelete rs docId uid).1 = some d := by
        have h0 := congrArg Prod.fst h
        simpa [findOneAndDelete, hc] using h0
      exact ih (findOneAndDelete rs docId uid).2 (by rw [← h1])

/-- takeWhile is never longer than the list. -/
theorem takeWhile_length_le' {α} (p : α → Bool) (l : List α) :
    (l.takeWhile p).length ≤ l.length := by
  induction l with
  | nil => simp
  | cons a t ih =>
    by_cases hp : p a
    · simp only [List.takeWhile_cons, hp, if_true, List.length_cons]
      omega
    · simp [List.takeWhile_cons, hp]

/-- takeWhile over an append whose left part satisfies the predicate
throughout. -/
theorem takeWhile_append_all {α} (p : α → Bool) (l₁ l₂ : List α)
    (h : ∀ c ∈ l₁, p c = true) :
    (l₁ ++ l₂).takeWhile p = l₁ ++ l₂.takeWhile p := by
  induction l₁ with
  | nil => simp
  | cons a t ih =>
    have ha := h a (List.mem_cons_self a t)
    simp only [List.cons_append, List.takeWhile_cons, ha, if_true]
    rw [ih (fun c hc => h c (List.mem_cons_of_mem a hc))]

/-- takeWhile over an append whose left part already stops the scan. -/
theorem takeWhile_append_of_lt {α} (p : α → Bool) (l m : List α)
    (h : (l.takeWhile p).length < l.length) :
    (l ++ m).takeWhile p = l.takeWhile p := by
  induction l with
  | nil => simp at h
  | cons a t ih =>
    by_cases hp : p a
    · simp only [List.takeWhile_cons, hp, if_true, List.length_cons] at h
      simp only [List.cons_append, List.takeWhile_cons, hp, if_true]
      rw [ih (by omega)]
    · simp [List.takeWhile_cons, hp]

/-- The head of a dropWhile remainder fails the predicate. -/
theorem dropWhile_head_false {α} (p : α → Bool) (l : List α) (c : α) (t : List α)
    (h : l.dropWhile p = c :: t) : p c = false := by
  induction l with
  | nil => simp at h
  | cons x xs ih =>
    by_cases hx : p x
    · simp only [List.dropWhile_cons, hx, if_true] at h
      exact ih h
    · simp only [List.dropWhile_cons, hx, if_false] at h
      cases h
      simpa using hx

/-- Shape of the replacement when the regex matches. -/
theorem replaceLastDotSuffix_of_match (cs repl : List Char) (h : dotSuffixMatch cs) :
    replaceLastDotSuffix cs repl =
      (cs.reverse.drop ((cs.reverse.takeWhile (fun c => c ≠ '.')).length + 1)).reverse ++ repl := by
  unfold dotSuffixMatch tailAfterLastDotLen at h
  unfold replaceLastDotSuffix
  rw [if_pos h]

/-- The path splits at its last dot when the regex matches. -/
theorem reverse_split_at_last_dot (cs : List Char) (h : dotSuffixMatch cs) :
    ∃ t : List Char,
      cs.reverse = (cs.reverse.takeWhile (fun c => c ≠ '.')) ++ '.' :: t ∧
        cs.reverse.drop ((cs.reverse.takeWhile (fun c => c ≠ '.')).length + 1) = t := by
  unfold dotSuffixMatch tailAfterLastDotLen at h
  set A := cs.reverse.takeWhile (fun c => c ≠ '.') with hA
  have hsplit : A ++ cs.reverse.dropWhile (fun c => c ≠ '.') = cs.reverse := by
    rw [hA]
    exact List.takeWhile_append_dropWhile _ _
  rcases hd : cs.reverse.dropWhile (fun c => c ≠ '.') with _ | ⟨c, t⟩
  · rw [hd, List.append_nil] at hsplit
    have hcontra : A.length = cs.reverse.length := by rw [hsplit]
    rw [List.length_reverse] at hcontra
    omega
  · have hc : c = '.' := by
      have hfalse := dropWhile_head_false (fun c => c ≠ '.') cs.reverse c t hd
      simpa using hfalse
    subst hc
    have hcs : cs.reverse = A ++ '.' :: t := by rw [← hsplit, hd]
    refine ⟨t, hcs, ?_⟩
    rw [hcs]
    have harr : A ++ '.' :: t = (A ++ ['.']) ++ t := by simp
    have hlen : A.length + 1 = (A ++ ['.']).length := by simp
    rw [harr, hlen, List.drop_left]

/-- A matching replacement changes the path whenever the replacement does
not itself begin with a dot-suffix-compatible dot; both replacements of the
source begin with an underscore. -/
theorem replaceLastDotSuffix_ne (cs repl : List Char) (h : dotSuffixMatch cs)
    (hrepl : repl.head? = some '_') :
    replaceLastDotSuffix cs repl ≠ cs := by
  intro heq
  obtain ⟨t, hsplit, hdrop⟩ := reverse_split_at_last_dot cs h
  rw [replaceLastDotSuffix_of_match cs repl h, hdrop] at heq
  have hrev := congrArg List.reverse heq
  rw [List.reverse_append, List.reverse_reverse, hsplit] at hrev
  have harr : cs.reverse.takeWhile (fun c => c ≠ '.') ++ '.' :: t =
      (cs.reverse.takeWhile (fun c => c ≠ '.') ++ ['.']) ++ t := by
    simp
  rw [harr] at hrev
  have hcancel : repl.reverse = cs.reverse.takeWhile (fun c => c ≠ '.') ++ ['.'] :=
    List.append_cancel_right hrev
  have hlast := congrArg List.getLast? hcancel
  rw [List.getLast?_reverse, List.getLast?_concat, hrepl] at hlast
  simp at hlast

/-- The replacement is a suffix of the result when the regex matches. -/
theorem replaceLastDotSuffix_isSuffix (cs repl : List Char) (h : dotSuffixMatch cs) :
    repl <:+ replaceLastDotSuffix cs repl := by
  rw [replaceLastDotSuffix_of_match cs repl h]
  exact List.suffix_append _ _

/-- A path with an extension of at least one character is matched by the
replacement regex of the helpers. -/
theorem dotSuffixMatch_of_extname (cs : List Char) (h2 : 2 ≤ (extnameList cs).length) :
    dotSuffixMatch cs := by
  unfold extnameList at h2
  by_cases hdd : basenameRev cs = ['.', '.']
  · rw [if_pos hdd] at h2
    simp at h2
  · rw [if_neg hdd] at h2
    by_cases hcond :
        ((basenameRev cs).takeWhile (fun c => c ≠ '.')).length + 1 < (basenameRev cs).length
    · rw [if_pos hcond, List.length_reverse, List.length_append] at h2
      simp only [List.length_singleton] at h2
      set S := cs.reverse.takeWhile (fun c => c = '/') with hS
      set D := cs.reverse.dropWhile (fun c => c = '/') with hD
      have hstruct : cs.reverse = S ++ D := by
        rw [hS, hD]
        exact (List.takeWhile_append_dropWhile _ _).symm
      have hslash : ∀ c ∈ S, (fun c => decide (c ≠ '.')) c = true := by
        intro c hc
        rw [hS] at hc
        have hmem := List.mem_takeWhile_imp hc
        simp only [decide_eq_true_eq] at hmem
        subst hmem
        decide
      have htake1 : cs.reverse.takeWhile (fun c => c ≠ '.') =
          S ++ D.takeWhile (fun c => c ≠ '.') := by
        rw [hstruct]
        exact takeWhile_append_all _ _ _ hslash
      have hdropstruct : D = basenameRev cs ++ D.dropWhile (fun c => c ≠ '/') := by
        rw [basenameRev, ← hD]
        exact (List.takeWhile_append_dropWhile _ _).symm
      have hbase : basenameRev cs = D.takeWhile (fun c => c ≠ '/') := by
        rw [basenameRev, hD]
      have htake2 : D.takeWhile (fun c => c ≠ '.') =
          (basenameRev cs).takeWhile (fun c => c ≠ '.') := by
        conv_lhs => rw [hdropstruct]
        refine takeWhile_append_of_lt _ _ _ ?_
        have hle := takeWhile_length_le' (fun c => decide (c ≠ '.')) (basenameRev cs)
        omega
      have hlenBD : (basenameRev cs).length ≤ D.length := by
        rw [hbase]
        exact takeWhile_length_le' _ _
      have hlencs : cs.length = S.length + D.length := by
        rw [← List.length_reverse, hstruct, List.length_append]
      constructor
      · unfold tailAfterLastDotLen
        rw [htake1, htake2, List.length_append]
        omega
      · unfold tailAfterLastDotLen
        rw [htake1, htake2, List.length_append]
        omega
    · rw [if_neg hcond] at h2
      simp at h2

/-- A path without a matching dot-suffix is left unchanged by the
replacement. -/
theorem replaceLastDotSuffix_no_match (cs repl : List Char) (h : ¬ dotSuffixMatch cs) :
    replaceLastDotSuffix cs repl = cs := by
  unfold dotSuffixMatch tailAfterLastDotLen at h
  unfold replaceLastDotSuffix
  rw [if_neg h]

/-- The conversion step's write does not touch the record collection. -/
theorem stAfterConvert_records (f : UploadedFile) (st : ServerState) :
    (stAfterConvert f st).records = st.records := by
  simp only [stAfterConvert]
  split_ifs <;> rfl

/-- The conversion step's write only adds files. -/
theorem stAfterConvert_superset (f : UploadedFile) (st : ServerState) :
    st.files ⊆ (stAfterConvert f st).files := by
  simp only [stAfterConvert]
  split_ifs <;> intro x hx <;> simp [Finset.mem_insert, hx]

/-- After the conversion step its output path is on disk when it is a fresh
path. -/
theorem stAfterConvert_mem_converted (f : UploadedFile) (st : ServerState)
    (h : convertToJPEG f.path ≠ f.path) :
    convertToJPEG f.path ∈ (stAfterConvert f st).files := by
  simp only [stAfterConvert]
  rw [if_pos h]
  exact Finset.mem_insert_self _ _

/-- After the conversion step its output path is on disk whenever the
original upload was. -/
theorem stAfterConvert_mem_converted_of_mem (f : UploadedFile) (st : ServerState)
    (h : f.path ∈ st.files) :
    convertToJPEG f.path ∈ (stAfterConvert f st).files := by
  by_cases hne : convertToJPEG f.path = f.path
  · rw [hne]
    exact stAfterConvert_superset f st h
  · exact stAfterConvert_mem_converted f st hne

/-- A path distinct from the converted path that was not on disk is still
not on disk after the conversion step. -/
theorem stAfterConvert_not_mem (f : UploadedFile) (st : ServerState) (x : String)
    (hx : x ∉ st.files) (h1 : x ≠ convertToJPEG f.path) :
    x ∉ (stAfterConvert f st).files := by
  simp only [stAfterConvert]
  split_ifs <;> simp [Finset.mem_insert, hx, h1]

/-- The downscale step's write does not touch the record collection. -/
theorem stAfterResize_records (p1 p2 : String) (st : ServerState) :
    (stAfterResize p1 p2 st).records = st.records := by
  simp only [stAfterResize]
  split_ifs <;> rfl

/-- The downscale step's write only adds files. -/
theorem stAfterResize_superset (p1 p2 : String) (st : ServerState) :
    st.files ⊆ (stAfterResize p1 p2 st).files := by
  simp only [stAfterResize]
  split_ifs <;> intro x hx <;> simp [Finset.mem_insert, hx]

/-- After the downscale step its returned path is on disk whenever its
input path was. -/
theorem stAfterResize_mem_resized (p1 p2 : String) (st : ServerState)
    (h : p1 ∈ st.files) :
    p2 ∈ (stAfterResize p1 p2 st).files := by
  by_cases hne : p2 = p1
  · rw [hne]
    exact stAfterResize_superset p1 p1 st h
  · simp only [stAfterResize]
    rw [if_pos hne]
    exact Finset.mem_insert_self _ _

/-- A path distinct from the resized path that was not on disk is still not
on disk after the downscale step. -/
theorem stAfterResize_not_mem (p1 p2 : String) (st : ServerState) (x : String)
    (hx : x ∉ st.files) (h2 : x ≠ p2) :
    x ∉ (stAfterResize p1 p2 st).files := by
  simp only [stAfterResize]
  split_ifs <;> simp [Finset.mem_insert, hx, h2]

/- ===================== Claim theorems ===================== -/

/-- C1: rename (PATCH /documents/:id) and delete (DELETE /documents/:id)
succeed only when the supplied owner identifier matches the record's owner;
with a correct id but a non-matching owner identifier both return 404 and
leave the store unchanged. -/
theorem c1_owner_scoped_mutations :
    (∀ (records : List DocRecord) (docId : Nat) (uid newName : String) (r : DocRecord),
        r ∈ records → r.id = docId → (∀ r' ∈ records, r'.id = docId → r' = r) →
        r.userId ≠ uid →
          patchDocumentHandler records docId uid newName = (⟨404, .empty⟩, records) ∧
            deleteDocumentHandler records docId uid = (⟨404, .empty⟩, records)) ∧
      (∀ (records : List DocRecord) (docId : Nat) (uid newName : String)
          (d : DocRecord) (records' : List DocRecord),
          patchDocumentHandler records docId uid newName = (⟨200, .recordBody d⟩, records') →
            d.userId = uid) ∧
      (∀ (records : List DocRecord) (docId : Nat) (uid : String)
          (d : DocRecord) (records' : List DocRecord),
          findOneAndDelete records docId uid = (some d, records') → d.userId = uid) := by
  refine ⟨?_, ?_, ?_⟩
  · intro records docId uid newName r _hr hid huniq hneq
    have hnone : ∀ r' ∈ records, ¬(r'.id = docId ∧ r'.userId = uid) := by
      intro r' hr' hc
      exact hneq ((huniq r' hr' hc.1 ▸ hc.2 : r.userId = uid))
    constructor
    · simp [patchDocumentHandler, findOneAndUpdateName_none records docId uid newName hnone]
    · simp [deleteDocumentHandler, findOneAndDelete_none records docId uid hnone]
  · intro records docId uid newName d records' h
    rcases hfind : findOneAndUpdateName records docId uid newName with ⟨res, rest⟩
    cases res with
    | none => simp [patchDocumentHandler, hfind] at h
    | some d' =>
      have hbody : d' = d := by
        have h0 := congrArg (fun q => q.1.body) h
        simpa [patchDocumentHandler, hfind] using h0
      exact hbody ▸ findOneAndUpdateName_some_owner records docId uid newName d' rest hfind
  · intro records docId uid d records' h
    exact findOneAndDelete_some_owner records docId uid d records' h

/-- C6: the conversion step returns a path ending in .jpg and distinct from
the input exactly when the lowercased extension of the input path is in the
fixed non-JPEG set; for every other input, including already-JPEG paths, it
returns the input path unchanged. -/
theorem c6_convert_to_jpeg (p : String) :
    (jpegSrcExts.contains (extLower p) = true →
        convertToJPEG p ≠ p ∧ ".jpg".toList <:+ (convertToJPEG p).toList) ∧
      (jpegSrcExts.contains (extLower p) = false → convertToJPEG p = p) := by
  constructor
  · intro hmem
    have hlen0 : (extLower p).length = (extnameList p.toList).length := by
      simp [extLower, String.length]
    have hmem2 : extLower p ∈ jpegSrcExts := by
      simpa using hmem
    have hmem' : extLower p = ".heic" ∨ extLower p = ".heif" ∨ extLower p = ".png" ∨
        extLower p = ".tiff" ∨ extLower p = ".tif" ∨ extLower p = ".gif" := by
      simpa [jpegSrcExts] using hmem2
    have hlen : 2 ≤ (extnameList p.toList).length := by
      rcases hmem' with h | h | h | h | h | h <;> rw [← hlen0, h] <;> decide
    have hmatch : dotSuffixMatch p.toList := dotSuffixMatch_of_extname _ hlen
    have hconv : convertToJPEG p = String.mk (replaceLastDotSuffix p.toList ("_converted.jpg".toList)) := by
      rw [convertToJPEG, if_pos hmem]
    constructor
    · rw [hconv]
      intro heq
      have hdata : replaceLastDotSuffix p.toList ("_converted.jpg".toList) = p.toList :=
        congrArg String.data heq
      exact replaceLastDotSuffix_ne p.toList ("_converted.jpg".toList) hmatch rfl hdata
    · rw [hconv]
      have hsuf : ("_converted.jpg".toList) <:+ replaceLastDotSuffix p.toList ("_converted.jpg".toList) :=
        replaceLastDotSuffix_isSuffix p.toList ("_converted.jpg".toList) hmatch
      exact List.IsSuffix.trans (by decide) hsuf
  · intro hnone
    rw [convertToJPEG, if_neg]
    rw [hnone]
    simp

/-- Witness for C6: a .png path is converted to a distinct path ending in
.jpg, and a .jpg path is returned unchanged. -/
theorem c6_convert_to_jpeg_witness :
    convertToJPEG "photo.png" ≠ "photo.png" ∧
      ".jpg".toList <:+ (convertToJPEG "photo.png").toList ∧
      convertToJPEG "photo.jpg" = "photo.jpg" :=
  ⟨((c6_convert_to_jpeg "photo.png").1 (by decide)).1,
    ((c6_convert_to_jpeg "photo.png").1 (by decide)).2,
    (c6_convert_to_jpeg "photo.jpg").2 (by decide)⟩

/-- C7 counterexample: a path with no extension, over the 20 MiB threshold.
The substitution regex does not match, so sharp is asked to write its
output to its input path and rejects; the downscale step fails with sharp's
same-file message and returns no path at all, in particular not the path of
a new resized copy. -/
theorem c7_downscale_counterexample :
    downscaleThreshold < 20971521 ∧
      downscaleImage 20971521 "upload" = .error sharpSameFileMessage := by
  constructor
  · decide
  · rfl

/-- C7 amended: at or below 20 MiB the step returns the input path
unchanged. Above the threshold, when the input path has a final extension
(a dot followed by at least one non-dot character at its end) the step
returns the input path with that extension replaced by _resized.jpg — a new
path, distinct from the input and ending in .jpg, written as a resized copy
at target width 2000, at most 2000px; when the input path has no such
extension the substitution is vacuous, sharp rejects writing to the input
path, and the step fails with sharp's same-file message, so the request is
answered 500 rather than returning a path. -/
theorem c7_downscale_amended (size : Nat) (p : String) :
    (size ≤ downscaleThreshold → downscaleImage size p = .ok p) ∧
      (downscaleThreshold < size → dotSuffixMatch p.toList →
        downscaleImage size p =
            .ok (String.mk (replaceLastDotSuffix p.toList ("_resized.jpg".toList))) ∧
          String.mk (replaceLastDotSuffix p.toList ("_resized.jpg".toList)) ≠ p ∧
          ".jpg".toList <:+ (String.mk (replaceLastDotSuffix p.toList ("_resized.jpg".toList))).toList ∧
          downscaleResizeWidth ≤ 2000) ∧
      (downscaleThreshold < size → ¬ dotSuffixMatch p.toList →
        downscaleImage size p = .error sharpSameFileMessage) := by
  refine ⟨?_, ?_, ?_⟩
  · intro hle
    rw [downscaleImage, if_neg (by omega)]
  · intro hgt hmatch
    have hne : String.mk (replaceLastDotSuffix p.toList ("_resized.jpg".toList)) ≠ p := by
      intro heq
      exact replaceLastDotSuffix_ne p.toList ("_resized.jpg".toList) hmatch rfl
        (congrArg String.data heq)
    refine ⟨?_, hne, ?_, by decide⟩
    · rw [downscaleImage, if_pos hgt]
      simp only [if_neg hne]
    · exact List.IsSuffix.trans (by decide)
        (replaceLastDotSuffix_isSuffix p.toList ("_resized.jpg".toList) hmatch)
  · intro hgt hnomatch
    have heqp : String.mk (replaceLastDotSuffix p.toList ("_resized.jpg".toList)) = p := by
      rw [replaceLastDotSuffix_no_match p.toList ("_resized.jpg".toList) hnomatch]
      rfl
    rw [downscaleImage, if_pos hgt]
    simp only [if_pos heqp]

/-- Witness for C7 amended: a small file keeps its path; a large .png file
gets a distinct resized path ending in .jpg; a large extensionless file
makes the step fail with sharp's same-file message. -/
theorem c7_downscale_amended_witness :
    downscaleImage 20971520 "photo.png" = .ok "photo.png" ∧
      downscaleImage 20971521 "photo.png" =
        .ok (String.mk (replaceLastDotSuffix "photo.png".toList ("_resized.jpg".toList))) ∧
      String.mk (replaceLastDotSuffix "photo.png".toList ("_resized.jpg".toList)) ≠ "photo.png" ∧
      downscaleImage 20971521 "noext" = .error sharpSameFileMessage :=
  ⟨(c7_downscale_amended 20971520 "photo.png").1 (by decide),
    ((c7_downscale_amended 20971521 "photo.png").2.1 (by decide) (by decide)).1,
    ((c7_downscale_amended 20971521 "photo.png").2.1 (by decide) (by decide)).2.1,
    (c7_downscale_amended 20971521 "noext").2.2 (by decide) (by decide)⟩

/-- C8 counterexample: on 11 October 2026 the generated file name carries
the century digits 20, not the two-digit year 26, because slicing the
DD.MM.YYYY string to 8 characters keeps the first half of the year. -/
theorem c8_filename_counterexample :
    docFileName { day := 11, month := 10, year := 2026 } = "document_11.10.20.docx" ∧
      docFileName { day := 11, month := 10, year := 2026 } ≠ "document_11.10.26.docx" := by
  constructor
  · decide
  · decide

/-- C8 amended: whenever the locale date string has the en-GB shape
DD/MM/YYYY (two-character day and month, four-character year, no slashes
inside the components), the generated name is document_DD.MM.YY'.docx where
YY' is the first two characters of the four-digit year — the truncation of
DD.MM.YYYY to 8 characters — not the final two-digit year. -/
theorem c8_filename_amended (d : SimpleDate) (dd mm yy : String)
    (h : toLocaleDateStringEnGB d = dd ++ "/" ++ mm ++ "/" ++ yy)
    (hdd : dd.toList.length = 2) (hmmlen : mm.toList.length = 2) (hyy : yy.toList.length = 4)
    (hd1 : '/' ∉ dd.toList) (hm1 : '/' ∉ mm.toList) (hy1 : '/' ∉ yy.toList) :
    docFileName d =
      "document_" ++ dd ++ "." ++ mm ++ "." ++ String.mk (yy.toList.take 2) ++ ".docx" := by
  obtain ⟨a, b, hab⟩ := List.length_eq_two.mp hdd
  obtain ⟨c, d2, hcd⟩ := List.length_eq_two.mp hmmlen
  obtain ⟨e, t1, he⟩ := @List.exists_of_length_succ Char 3 yy.toList (by omega)
  have ht1 : t1.length = 3 := by
    have hk := hyy
    rw [he] at hk
    simpa using hk
  obtain ⟨f, g, k, hfgk⟩ := List.length_eq_three.mp ht1
  have hyyl : yy.toList = [e, f, g, k] := by rw [he, hfgk]
  rw [hab] at hd1
  rw [hcd] at hm1
  rw [hyyl] at hy1
  have hna : a ≠ '/' := fun hq => hd1 (by rw [hq]; exact List.mem_cons_self _ _)
  have hnb : b ≠ '/' := fun hq => hd1 (by rw [hq]; simp)
  have hnc : c ≠ '/' := fun hq => hm1 (by rw [hq]; exact List.mem_cons_self _ _)
  have hnd : d2 ≠ '/' := fun hq => hm1 (by rw [hq]; simp)
  have hne : e ≠ '/' := fun hq => hy1 (by rw [hq]; exact List.mem_cons_self _ _)
  have hnf : f ≠ '/' := fun hq => hy1 (by rw [hq]; simp)
  apply String.toList_inj.mp
  have hLHS : (docFileName d).toList =
      "document_".toList ++
        (((toLocaleDateStringEnGB d).toList.map slashToDot).take 8) ++ ".docx".toList := rfl
  have hdate : (toLocaleDateStringEnGB d).toList =
      dd.toList ++ "/".toList ++ mm.toList ++ "/".toList ++ yy.toList := by
    rw [h]
    rfl
  have hRHS : ("document_" ++ dd ++ "." ++ mm ++ "." ++ String.mk (yy.toList.take 2) ++ ".docx").toList =
      "document_".toList ++ dd.toList ++ ".".toList ++ mm.toList ++ ".".toList ++
        yy.toList.take 2 ++ ".docx".toList := rfl
  rw [hLHS, hdate, hRHS, hab, hcd, hyyl]
  simp [slashToDot, hna, hnb, hnc, hnd, hne, hnf]

/-- Witness for C8 amended: the concrete date 11 October 2026. -/
theorem c8_filename_amended_witness :
    docFileName { day := 11, month := 10, year := 2026 } =
      "document_" ++ "11" ++ "." ++ "10" ++ "." ++ String.mk ("2026".toList.take 2) ++ ".docx" :=
  c8_filename_amended { day := 11, month := 10, year := 2026 } "11" "10" "2026"
    (by decide) (by decide) (by decide) (by decide) (by decide) (by decide) (by decide)

/-- C4: the builder emits, in page-then-paragraph-then-segment order, one
output paragraph per OCR paragraph whose runs carry the text sliced from
the segment offsets (missing offsets defaulting to 0) with one trailing
space appended; in particular, for two pages of one two-segment paragraph
each, the output is exactly two paragraphs of two runs each. -/
theorem c4_document_builder :
    (∀ (text : String) (pages : List OcrPage),
        (buildParagraphs text pages).map (fun pr => pr.children.map TextRun.text) =
          (pages.map (fun page => (page.paragraphs.getD []).map (fun para =>
            (paraSegments para).map (fun s =>
              jsSlice text (s.startIndex.getD 0) (s.endIndex.getD 0) ++ " ")))).flatten) ∧
      (buildParagraphs sampleText samplePages).map (fun pr => pr.children.map TextRun.text) =
        [["hello ", "world "], ["foo ", "bar "]] := by
  constructor
  · intro text pages
    simp [buildParagraphs, buildParagraph, buildTextRun, List.map_flatten, List.map_map,
      Function.comp_def]
  · decide

/-- C5: a run is bold exactly when the first detected language of its
paragraph is present with confidence above 0.9, and italic exactly when its
sliced text contains an underscore. -/
theorem c5_run_styling (text : String) (para : OcrParagraph) (s : TextSegment) :
    ((buildTextRun text para s).bold = true ↔
        ∃ lang c, para.detectedLanguages.bind List.head? = some lang ∧
          lang.confidence = some c ∧ (9 : ℚ) / 10 < c) ∧
      ((buildTextRun text para s).italics = true ↔
        '_' ∈ (jsSlice text (s.startIndex.getD 0) (s.endIndex.getD 0)).toList) := by
  constructor
  · show paraBold para = true ↔ _
    rcases hl : para.detectedLanguages.bind List.head? with _ | lang
    · simp [paraBold, hl]
    · rcases hc : lang.confidence with _ | c
      · simp [paraBold, hl, hc]
      · simp [paraBold, hl, hc, decide_eq_true_eq]
  · show (jsSlice text (s.startIndex.getD 0) (s.endIndex.getD 0)).toList.contains '_' = true ↔ _
    simp

/-- C3: a POST /ocr request with a file but no userId never creates a
record, and — when the OCR call succeeds and returns a document, so that
the pipeline reaches the userId check — is answered 401 with the
Missing userId error body. -/
theorem c3_missing_userid (env : OcrEnv) (req : OcrRequest) (st : ServerState)
    (f : UploadedFile) (hf : req.file = some f) (hu : req.userId = none) :
    (ocrHandler env req st).2.records = st.records ∧
      (∀ (r : OcrResult) (doc : OcrDocument) (p2 : String),
        env.ocr = .ok r → r.document = some doc →
        downscaleImage (env.fileSize (convertToJPEG f.path)) (convertToJPEG f.path) = .ok p2 →
        (ocrHandler env req st).1 = ⟨401, .errorMsg "Missing userId"⟩) := by
  constructor
  · rcases hds : downscaleImage (env.fileSize (convertToJPEG f.path)) (convertToJPEG f.path)
      with e | p2
    · simp only [ocrHandler, hf, hds]
      exact stAfterConvert_records f st
    · rcases hocr : env.ocr with e | r
      · simp only [ocrHandler, hf, hds, hocr]
        exact (stAfterResize_records _ _ _).trans (stAfterConvert_records f st)
      · rcases hdoc : r.document with _ | doc
        · simp only [ocrHandler, hf, hds, hocr, hdoc]
          exact (stAfterResize_records _ _ _).trans (stAfterConvert_records f st)
        · simp only [ocrHandler, hf, hds, hocr, hdoc, hu]
          exact (stAfterResize_records _ _ _).trans (stAfterConvert_records f st)
  · intro r doc p2 hocr hdoc hds
    simp only [ocrHandler, hf, hds, hocr, hdoc, hu]

/-- Witness for C3: concrete request with a file and no userId against a
succeeding OCR environment. -/
theorem c3_missing_userid_witness :
    (ocrHandler c2Env c3Req c2St).2.records = c2St.records ∧
      (ocrHandler c2Env c3Req c2St).1 = ⟨401, .errorMsg "Missing userId"⟩ :=
  ⟨(c3_missing_userid c2Env c3Req c2St { path := "a.png" } rfl rfl).1,
    (c3_missing_userid c2Env c3Req c2St { path := "a.png" } rfl rfl).2
      { document := some { text := some "hi", pages := some [] } }
      { text := some "hi", pages := some [] } "a_converted_resized.jpg" rfl rfl rfl⟩

/-- C9: on a request with a file but no userId whose OCR call succeeds with
a document, the whole pipeline still runs before the 401 response: the
generated docx name is written into the upload directory, nothing is
removed — the uploaded file and both derived paths are still present — and
no record is created. -/
theorem c9_pipeline_before_userid_check (env : OcrEnv) (req : OcrRequest) (st : ServerState)
    (f : UploadedFile) (r : OcrResult) (doc : OcrDocument) (p2 : String)
    (hf : req.file = some f) (hu : req.userId = none)
    (hocr : env.ocr = .ok r) (hdoc : r.document = some doc)
    (hds : downscaleImage (env.fileSize (convertToJPEG f.path)) (convertToJPEG f.path) = .ok p2)
    (hp0 : f.path ∈ st.files) :
    (ocrHandler env req st).1 = ⟨401, .errorMsg "Missing userId"⟩ ∧
      docFileName env.date ∈ (ocrHandler env req st).2.files ∧
      st.files ⊆ (ocrHandler env req st).2.files ∧
      f.path ∈ (ocrHandler env req st).2.files ∧
      convertToJPEG f.path ∈ (ocrHandler env req st).2.files ∧
      p2 ∈ (ocrHandler env req st).2.files ∧
      (ocrHandler env req st).2.records = st.records := by
  simp only [ocrHandler, hf, hds, hocr, hdoc, hu]
  refine ⟨trivial, ?_, ?_, ?_, ?_, ?_, ?_⟩
  · exact Finset.mem_insert_self _ _
  · intro x hx
    exact Finset.mem_insert_of_mem
      (stAfterResize_superset _ _ _ (stAfterConvert_superset f st hx))
  · exact Finset.mem_insert_of_mem
      (stAfterResize_superset _ _ _ (stAfterConvert_superset f st hp0))
  · exact Finset.mem_insert_of_mem
      (stAfterResize_superset _ _ _ (stAfterConvert_mem_converted_of_mem f st hp0))
  · exact Finset.mem_insert_of_mem
      (stAfterResize_mem_resized _ _ _ (stAfterConvert_mem_converted_of_mem f st hp0))
  · exact (stAfterResize_records _ _ _).trans (stAfterConvert_records f st)

/-- Witness for C9: the concrete no-userId request; the docx name, the
upload, the converted copy and the resized copy are all present after the
401 response. -/
theorem c9_pipeline_before_userid_check_witness :
    (ocrHandler c2Env c3Req c2St).1 = ⟨401, .errorMsg "Missing userId"⟩ ∧
      docFileName c2Env.date ∈ (ocrHandler c2Env c3Req c2St).2.files ∧
      "a.png" ∈ (ocrHandler c2Env c3Req c2St).2.files ∧
      convertToJPEG "a.png" ∈ (ocrHandler c2Env c3Req c2St).2.files ∧
      "a_converted_resized.jpg" ∈ (ocrHandler c2Env c3Req c2St).2.files := by
  have hw := c9_pipeline_before_userid_check c2Env c3Req c2St { path := "a.png" }
    { document := some { text := some "hi", pages := some [] } }
    { text := some "hi", pages := some [] } "a_converted_resized.jpg" rfl rfl rfl rfl rfl
    (by decide)
  exact ⟨hw.1, hw.2.1, hw.2.2.2.1, hw.2.2.2.2.1, hw.2.2.2.2.2.1⟩

/-- C10: when the OCR call succeeds but its response carries no document
object, the handler answers 500 with the message of the TypeError raised by
reading pages of the absent document; no record is created and no output
document is written. -/
theorem c10_no_document_object (env : OcrEnv) (req : OcrRequest) (st : ServerState)
    (f : UploadedFile) (r : OcrResult) (p2 : String)
    (hf : req.file = some f) (hocr : env.ocr = .ok r) (hdoc : r.document = none)
    (hds : downscaleImage (env.fileSize (convertToJPEG f.path)) (convertToJPEG f.path) = .ok p2)
    (hfresh : docFileName env.date ∉ st.files)
    (h1 : docFileName env.date ≠ convertToJPEG f.path)
    (h2 : docFileName env.date ≠ p2) :
    (ocrHandler env req st).1 = ⟨500, .errorMsg undefinedPagesMessage⟩ ∧
      (ocrHandler env req st).2.records = st.records ∧
      docFileName env.date ∉ (ocrHandler env req st).2.files := by
  simp only [ocrHandler, hf, hds, hocr, hdoc]
  exact ⟨trivial, (stAfterResize_records _ _ _).trans (stAfterConvert_records f st),
    stAfterResize_not_mem _ _ _ _ (stAfterConvert_not_mem f st _ hfresh h1) h2⟩

/-- Witness for C10: a concrete environment whose OCR response has no
document object (small file, so the downscale step returns its input). -/
theorem c10_no_document_object_witness :
    (ocrHandler c10Env c2Req c2St).1 = ⟨500, .errorMsg undefinedPagesMessage⟩ ∧
      (ocrHandler c10Env c2Req c2St).2.records = c2St.records ∧
      docFileName c10Env.date ∉ (ocrHandler c10Env c2Req c2St).2.files := by
  exact c10_no_document_object c10Env c2Req c2St { path := "a.png" } { document := none }
    "a_converted.jpg" rfl rfl rfl rfl (by decide) (by decide) (by decide)

/-- C2 counterexample: a successful request whose upload is converted and
then downscaled leaves the intermediate converted copy in the upload
directory after the 201 response — not every derived temporary artifact is
removed at the end of the request. -/
theorem c2_cleanup_counterexample :
    (ocrHandler c2Env c2Req c2St).1.status = 201 ∧
      "a_converted.jpg" ∈ (ocrHandler c2Env c2Req c2St).2.files := by
  constructor
  · decide
  · decide

/-- C2 amended: on a successful request the original upload and the final
derived path are removed while the generated output document is retained,
but when the conversion and the downscale both produced new paths the
intermediate converted copy is not removed; on a failed request — whether
the downscale step rejects or the OCR call fails — nothing is removed at
all. -/
theorem c2_cleanup_amended :
    (∀ (env : OcrEnv) (req : OcrRequest) (st : ServerState) (f : UploadedFile)
        (r : OcrResult) (doc : OcrDocument) (uid : String) (p2 : String),
        req.file = some f → req.userId = some uid →
        env.ocr = .ok r → r.document = some doc →
        downscaleImage (env.fileSize (convertToJPEG f.path)) (convertToJPEG f.path) = .ok p2 →
        f.path ≠ docFileName env.date →
        convertToJPEG f.path ≠ docFileName env.date →
        p2 ≠ docFileName env.date →
          (ocrHandler env req st).1.status = 201 ∧
            docFileName env.date ∈ (ocrHandler env req st).2.files ∧
            f.path ∉ (ocrHandler env req st).2.files ∧
            p2 ∉ (ocrHandler env req st).2.files ∧
            (convertToJPEG f.path ≠ f.path → p2 ≠ convertToJPEG f.path →
              convertToJPEG f.path ∈ (ocrHandler env req st).2.files)) ∧
      (∀ (env : OcrEnv) (req : OcrRequest) (st : ServerState) (f : UploadedFile) (e : String),
        req.file = some f → env.ocr = .error e →
          (∀ p2 : String,
            downscaleImage (env.fileSize (convertToJPEG f.path)) (convertToJPEG f.path) =
                .ok p2 →
              (ocrHandler env req st).1 = ⟨500, .errorMsg e⟩) ∧
            st.files ⊆ (ocrHandler env req st).2.files) ∧
      (∀ (env : OcrEnv) (req : OcrRequest) (st : ServerState) (f : UploadedFile) (e : String),
        req.file = some f →
        downscaleImage (env.fileSize (convertToJPEG f.path)) (convertToJPEG f.path) =
            .error e →
          (ocrHandler env req st).1 = ⟨500, .errorMsg e⟩ ∧
            st.files ⊆ (ocrHandler env req st).2.files) := by
  refine ⟨?_, ?_, ?_⟩
  · intro env req st f r doc uid p2 hf hu hocr hdoc hds hn0 hn1 hn2
    simp only [ocrHandler, hf, hds, hocr, hdoc, hu]
    by_cases hp20 : p2 = f.path
    · rw [if_neg (by simpa using hp20)]
      refine ⟨trivial, ?_, ?_, ?_, ?_⟩
      · exact Finset.mem_erase.mpr ⟨Ne.symm hn0, Finset.mem_insert_self _ _⟩
      · exact Finset.not_mem_erase _ _
      · rw [hp20]
        exact Finset.not_mem_erase _ _
      · intro hp1 hp21
        refine Finset.mem_erase.mpr ⟨hp1, Finset.mem_insert_of_mem ?_⟩
        exact stAfterResize_superset _ _ _ (stAfterConvert_mem_converted f st hp1)
    · rw [if_pos hp20]
      refine ⟨trivial, ?_, ?_, ?_, ?_⟩
      · refine Finset.mem_erase.mpr ⟨Ne.symm hn2, ?_⟩
        exact Finset.mem_erase.mpr ⟨Ne.symm hn0, Finset.mem_insert_self _ _⟩
      · intro hmem
        exact Finset.not_mem_erase _ _ (Finset.mem_of_mem_erase hmem)
      · exact Finset.not_mem_erase _ _
      · intro hp1 hp21
        refine Finset.mem_erase.mpr ⟨Ne.symm hp21, ?_⟩
        refine Finset.mem_erase.mpr ⟨hp1, Finset.mem_insert_of_mem ?_⟩
        exact stAfterResize_superset _ _ _ (stAfterConvert_mem_converted f st hp1)
  · intro env req st f e hf hocr
    constructor
    · intro p2 hds
      simp only [ocrHandler, hf, hds, hocr]
    · rcases hds : downscaleImage (env.fileSize (convertToJPEG f.path)) (convertToJPEG f.path)
        with e2 | p2
      · simp only [ocrHandler, hf, hds]
        exact stAfterConvert_superset f st
      · simp only [ocrHandler, hf, hds, hocr]
        intro x hx
        exact stAfterResize_superset _ _ _ (stAfterConvert_superset f st hx)
  · intro env req st f e hf hds
    simp only [ocrHandler, hf, hds]
    exact ⟨trivial, stAfterConvert_superset f st⟩

/-- Witness for C2 amended: on the concrete successful request the docx is
retained, the upload and the resized copy are removed, and the converted
copy remains. -/
theorem c2_cleanup_amended_witness :
    (ocrHandler c2Env c2Req c2St).1.status = 201 ∧
      docFileName c2Env.date ∈ (ocrHandler c2Env c2Req c2St).2.files ∧
      "a.png" ∉ (ocrHandler c2Env c2Req c2St).2.files ∧
      "a_converted_resized.jpg" ∉ (ocrHandler c2Env c2Req c2St).2.files ∧
      convertToJPEG "a.png" ∈ (ocrHandler c2Env c2Req c2St).2.files := by
  have hw := c2_cleanup_amended.1 c2Env c2Req c2St { path := "a.png" }
    { document := some { text := some "hi", pages := some [] } }
    { text := some "hi", pages := some [] } "u1" "a_converted_resized.jpg" rfl rfl rfl rfl rfl
    (by decide) (by decide) (by decide)
  exact ⟨hw.1, hw.2.1, hw.2.2.1, hw.2.2.2.1, hw.2.2.2.2 (by decide) (by decide)⟩

/-- Witness for C1: in a one-record store owned by alice, a rename and a
delete supplied with the correct id but owner bob return 404 and leave the
store unchanged. -/
theorem c1_owner_scoped_mutations_witness :
    patchDocumentHandler [⟨1, "alice", "n", "u", "t"⟩] 1 "bob" "renamed" =
        (⟨404, .empty⟩, [⟨1, "alice", "n", "u", "t"⟩]) ∧
      deleteDocumentHandler [⟨1, "alice", "n", "u", "t"⟩] 1 "bob" =
        (⟨404, .empty⟩, [⟨1, "alice", "n", "u", "t"⟩]) :=
  c1_owner_scoped_mutations.1 [⟨1, "alice", "n", "u", "t"⟩] 1 "bob" "renamed"
    ⟨1, "alice", "n", "u", "t"⟩ (by simp) rfl (by simp) (by decide)

end NoteOCR
